import Mathlib

/-
  Verification development for the BSB-Compute dispatch loop
  (src/src/main.py, executar_politica).

  The Python loop is embedded shallowly:
  - task dicts become the structure Tarefa, per-server state dicts become
    SrvState keyed by server id in an association list whose order is the
    order of the servers in the configuration (Python dicts preserve
    insertion order);
  - durations and timestamps are rationals;
  - Python exceptions (KeyError, ZeroDivisionError, TypeError) become
    Except.error values;
  - the external Scheduler class (scheduler.py is not part of src/) is
    modelled from the spec where a definition needs it.
-/

namespace BSBCompute

/-- One request from the run configuration: fields id, prioridade, tempo_exec. -/
structure Requisicao where
  id : Nat
  prioridade : Nat
  tempo_exec : ℚ
deriving DecidableEq, Repr

/-- One server from the run configuration: fields id, capacidade. -/
structure Servidor where
  id : Nat
  capacidade : Nat
deriving DecidableEq, Repr

/-- A pending task as built at the top of executar_politica: the request fields
plus arrival_time, remaining, running and last_worker. -/
structure Tarefa where
  id : Nat
  prioridade : Nat
  tempo_exec : ℚ
  arrival_time : ℚ
  remaining : ℚ
  running : Bool
  last_worker : Option Nat
deriving DecidableEq, Repr

/-- Per-server mutable state: the dict with keys cap, load, busy.
load is an Int so that the embedding can express the decrement performed on a
response without silently truncating at zero. -/
structure SrvState where
  cap : Nat
  load : Int
  busy : ℚ
deriving DecidableEq, Repr

/-- The estados dict: server id to state, in configuration order. -/
abbrev Estados := List (Nat × SrvState)

/-- The completion-record entry: dict with keys arrival and end.
The field end is called endT because end is reserved in Lean. -/
structure CompRec where
  arrival : ℚ
  endT : Option ℚ
deriving DecidableEq, Repr

/-- The completed dict: task id to completion record, in insertion order. -/
abbrev Completed := List (Nat × CompRec)

/-- The dispatch message sent to a worker queue. slice and exec_time are
optional fields, mirroring the two branches that populate the msg dict. -/
structure Msg where
  id : Nat
  priority : Nat
  remaining : ℚ
  slice : Option ℚ
  exec_time : Option ℚ
deriving DecidableEq, Repr

/-- A worker response drained from the retorno queue. -/
structure Resposta where
  worker : Nat
  id : Nat
  duration : ℚ
  remaining : ℚ
  cpu : ℚ
  memory : ℚ
deriving DecidableEq, Repr

/-- The observable events printed by the loop. -/
inductive Evento where
  | migration (taskId fromSrv toSrv : Nat)
  | assignment (taskId toSrv : Nat)
  | completion (taskId srv : Nat)
  | preemption (taskId srv : Nat) (remaining : ℚ)
deriving DecidableEq, Repr

/-- The run metrics returned by executar_politica. -/
structure Metricas where
  tempo_medio : ℚ
  throughput : ℚ
  utilizacao : ℚ
deriving DecidableEq, Repr

/-- The per-cycle mutable state owned by the dispatch loop. -/
structure LoopState where
  pending : List Tarefa
  estados : Estados
  completed : Completed
deriving DecidableEq, Repr

/-- Initial pending list: each request becomes a task with remaining equal to
tempo_exec, not running, with no last worker. -/
def initPending (reqs : List Requisicao) (start : ℚ) : List Tarefa :=
  reqs.map fun r =>
    { id := r.id, prioridade := r.prioridade, tempo_exec := r.tempo_exec,
      arrival_time := start, remaining := r.tempo_exec, running := false,
      last_worker := none }

/-- Initial estados dict: every server starts with load 0 and busy 0. -/
def initEstados (servidores : List Servidor) : Estados :=
  servidores.map fun s => (s.id, { cap := s.capacidade, load := 0, busy := 0 })

/-- Dict lookup on an id-keyed association list: the first entry with the
given key. Python dict keys are unique, so first match is the match. -/
def lookupAssoc {β : Type} : List (Nat × β) → Nat → Option (Nat × β)
  | [], _ => none
  | p :: ps, k => if p.1 = k then some p else lookupAssoc ps k

/-- Dict update d[k] = f (d[k]) on an id-keyed association list. -/
def updAssoc {β : Type} (l : List (Nat × β)) (k : Nat) (f : β → β) :
    List (Nat × β) :=
  l.map fun p => if p.1 = k then (p.1, f p.2) else p

/-- The livres list: ids of servers with load strictly below capacity, in
dict (configuration) order. -/
def livresOf (estados : Estados) : List Nat :=
  (estados.filter fun p => decide (p.2.load < (p.2.cap : Int))).map Prod.fst

/-- Dict access estados[sid].load (0 if absent; the loop only looks up ids
that are present). -/
def loadOf (estados : Estados) (sid : Nat) : Int :=
  match lookupAssoc estados sid with
  | some p => p.2.load
  | none => 0

/-- Dict access estados[sid].busy (0 if absent). -/
def busyOf (estados : Estados) (sid : Nat) : ℚ :=
  match lookupAssoc estados sid with
  | some p => p.2.busy
  | none => 0

/-- Dict access completed[tid] (the record only, none if absent). -/
def recOf (completed : Completed) (tid : Nat) : Option CompRec :=
  (lookupAssoc completed tid).map Prod.snd

/-- Python min(xs, key) on a nonempty list: fold that keeps the current best
and replaces it only on finding a strictly smaller key, hence it returns the
first element attaining the minimum key. -/
def pyMin (key : Nat → Int) : List Nat → Option Nat
  | [] => none
  | x :: xs => some (xs.foldl (fun b y => if key y < key b then y else b) x)

/-- The eligible filter: tasks not running with remaining time left. -/
def elegiveisOf (pending : List Tarefa) : List Tarefa :=
  pending.filter fun t => decide (t.running = false ∧ 0 < t.remaining)

/-- The server-selection logic of the assignment loop: for a previously run
task prefer the free servers different from last_worker and take the least
loaded among them; if there is no such candidate, or the task never ran, take
the least loaded free server. -/
def chooseServer (estados : Estados) (livres : List Nat) (lw : Option Nat) :
    Option Nat :=
  match lw with
  | some l =>
    let candidatos := livres.filter fun x => decide (x ≠ l)
    if candidatos.isEmpty then pyMin (loadOf estados) livres
    else pyMin (loadOf estados) candidatos
  | none => pyMin (loadOf estados) livres

/-- The msg dict sent to the chosen worker: under rr a slice bounded by the
quantum, under any other policy the full remaining time as exec_time. -/
def buildMsg (policy : String) (quantum : ℚ) (t : Tarefa) : Msg :=
  if policy = "rr" then
    { id := t.id, priority := t.prioridade, remaining := t.remaining,
      slice := some (min quantum t.remaining), exec_time := none }
  else
    { id := t.id, priority := t.prioridade, remaining := t.remaining,
      slice := none, exec_time := some t.remaining }

/-- The event printed right after a dispatch: a migration when last_worker is
set and differs from the chosen server, a plain assignment otherwise. -/
def emitEvent (t : Tarefa) (sid : Nat) : Evento :=
  match t.last_worker with
  | some lw => if lw ≠ sid then .migration t.id lw sid else .assignment t.id sid
  | none => .assignment t.id sid

/-- estados[sid].load += 1. -/
def incLoad (estados : Estados) (sid : Nat) : Estados :=
  updAssoc estados sid fun s => { s with load := s.load + 1 }

/-- Result of one iteration of the assignment loop body. -/
structure AssignResult where
  t2 : Tarefa
  estados : Estados
  completed : Completed
  msg : Msg
  ev : Evento
deriving DecidableEq, Repr

/-- One iteration of the assignment loop body, for the task the scheduler just
selected: choose the server, mark the task running, open its completion record
on first dispatch, build and send the message, bump the load, emit the event
and record the new last_worker. -/
def assignOne (policy : String) (quantum : ℚ) (estados : Estados)
    (completed : Completed) (t : Tarefa) : Option AssignResult :=
  match chooseServer estados (livresOf estados) t.last_worker with
  | none => none
  | some sid =>
    let completed1 :=
      if (lookupAssoc completed t.id).isSome then completed
      else completed ++ [(t.id, { arrival := t.arrival_time, endT := none })]
    some { t2 := { t with running := true, last_worker := some sid },
           estados := incLoad estados sid,
           completed := completed1,
           msg := buildMsg policy quantum t,
           ev := emitEvent t sid }

/-- The response-handling scan over pending: the first task whose id matches
gets remaining and running updated, then the Python loop breaks. -/
def updateTask (respId : Nat) (respRem : ℚ) : List Tarefa → List Tarefa
  | [] => []
  | p :: ps =>
    if p.id = respId then
      { p with remaining := respRem, running := false } :: ps
    else p :: updateTask respId respRem ps

/-- completed[tid].endT := now2. -/
def setEnd (completed : Completed) (tid : Nat) (now2 : ℚ) : Completed :=
  updAssoc completed tid fun c => { c with endT := some now2 }

/-- Processing of one drained response: bump busy, decrement load, update the
matching pending task, then either close the completion record and drop the
task (remaining 0) or keep it pending (preemption). Dict accesses that would
raise KeyError in Python become Except.error. -/
def drainOne (st : LoopState) (resp : Resposta) (now2 : ℚ) :
    Except String (LoopState × Evento) :=
  if (lookupAssoc st.estados resp.worker).isNone then
    .error ("KeyError: worker")
  else
    let estados1 := updAssoc st.estados resp.worker fun s =>
      { s with busy := s.busy + resp.duration, load := s.load - 1 }
    let pending1 := updateTask resp.id resp.remaining st.pending
    if resp.remaining = 0 then
      if (lookupAssoc st.completed resp.id).isNone then
        .error ("KeyError: completed")
      else
        .ok ({ pending := pending1.filter fun p => decide (p.id ≠ resp.id),
               estados := estados1,
               completed := setEnd st.completed resp.id now2 },
             .completion resp.id resp.worker)
    else
      .ok ({ pending := pending1, estados := estados1,
             completed := st.completed },
           .preemption resp.id resp.worker resp.remaining)

/-- The stop condition of the outer loop: every pending task has remaining 0
(vacuously true on the empty list). -/
def exitCond (pending : List Tarefa) : Bool :=
  pending.all fun t => decide (t.remaining = 0)

/-- The final metrics block: response times from the completion records, mean,
throughput and mean utilization. Python would raise TypeError on an open
record and ZeroDivisionError on an empty record set, zero elapsed time or an
empty server dict, in that evaluation order. -/
def metricas (completed : Completed) (estados : Estados) (total : ℚ) :
    Except String Metricas :=
  if completed.any fun c => c.2.endT.isNone then
    .error ("TypeError: end is None")
  else
    let tempos := completed.map fun c => c.2.endT.getD 0 - c.2.arrival
    if completed.length = 0 then .error ("ZeroDivisionError")
    else if total = 0 then .error ("ZeroDivisionError")
    else if estados.length = 0 then .error ("ZeroDivisionError")
    else
      .ok { tempo_medio := tempos.sum / (completed.length : ℚ),
            throughput := (completed.length : ℚ) / total,
            utilizacao :=
              (estados.map fun p => p.2.busy / total * 100).sum /
                (estados.length : ℚ) }

/-- Modelled from the spec: the Scheduler class comes from scheduler.py, which
is not part of src/. Per the spec, reorder is a no-op for round-robin, a
stable ascending sort by remaining for sjf and a stable ascending sort by
priority for prioridade. -/
def reorder (policy : String) (tasks : List Tarefa) : List Tarefa :=
  if policy = "sjf" then
    tasks.mergeSort fun a b => decide (a.remaining ≤ b.remaining)
  else if policy = "prioridade" then
    tasks.mergeSort fun a b => decide (a.prioridade ≤ b.prioridade)
  else tasks

/-- Modelled from the spec: the selection operation pops the head of the
ordered eligible list and consumes it, so a task is not re-selected within
one cycle. -/
def next_task : List Tarefa → Option (Tarefa × List Tarefa)
  | [] => none
  | t :: rest => some (t, rest)

/-- Write-back of the task the loop body just mutated: in Python the eligible
list holds the very dict objects stored in pending, so mutating the selected
task updates pending in place; with unique task ids this is replacement by
id. -/
def setTask (pending : List Tarefa) (t : Tarefa) : List Tarefa :=
  pending.map fun p => if p.id = t.id then t else p

/-- The inner while loop over eligible tasks and free servers. The fuel is the
length of the eligible list, an upper bound on the number of iterations since
selection consumes one task per iteration. -/
def assignPhaseAux (policy : String) (quantum : ℚ) :
    Nat → List Tarefa → LoopState → LoopState × List Evento
  | 0, _, st => (st, [])
  | fuel + 1, elegiveis, st =>
    if (livresOf st.estados).isEmpty then (st, [])
    else
      match next_task elegiveis with
      | none => (st, [])
      | some (t, rest) =>
        match assignOne policy quantum st.estados st.completed t with
        | none => (st, [])
        | some r =>
          let st1 : LoopState :=
            { pending := setTask st.pending r.t2, estados := r.estados,
              completed := r.completed }
          let (st2, evs) := assignPhaseAux policy quantum fuel rest st1
          (st2, r.ev :: evs)

/-- One assignment phase of a cycle: filter the eligible tasks, let the
scheduler reorder them, then run the inner assignment loop. -/
def assignPhase (policy : String) (quantum : ℚ) (st : LoopState) :
    LoopState × List Evento :=
  let elegiveis := reorder policy (elegiveisOf st.pending)
  assignPhaseAux policy quantum elegiveis.length elegiveis st

/-- The response-draining phase: process the responses currently available on
the retorno queue, each paired with the wall-clock time at which it is
handled. -/
def drainAll (st : LoopState) :
    List (Resposta × ℚ) → Except String (LoopState × List Evento)
  | [] => .ok (st, [])
  | (resp, now2) :: rest =>
    match drainOne st resp now2 with
    | .error e => .error e
    | .ok (st1, ev) =>
      match drainAll st1 rest with
      | .error e => .error e
      | .ok (st2, evs) => .ok (st2, ev :: evs)

/-- The outer while True loop: assignment phase, drain phase, stop check. The
oracle gives the responses available on the retorno queue in cycle k; fuel
bounds the number of cycles so the function is total (the real loop can hang,
which the spec documents). -/
def runLoop (policy : String) (quantum : ℚ)
    (oracle : Nat → List (Resposta × ℚ)) :
    Nat → Nat → LoopState → Except String LoopState
  | 0, _, _ => .error ("fuel exhausted")
  | fuel + 1, k, st =>
    let st1 := (assignPhase policy quantum st).1
    match drainAll st1 (oracle k) with
    | .error e => .error e
    | .ok (st2, _evs) =>
      if exitCond st2.pending then .ok st2
      else runLoop policy quantum oracle fuel (k + 1) st2

/-- The whole policy run: build the initial state from the configuration, run
the loop, then compute the metrics over the final completion records and
server states, with total the elapsed wall time. -/
def executar_politica (policy : String) (quantum : ℚ)
    (requisicoes : List Requisicao) (servidores : List Servidor)
    (oracle : Nat → List (Resposta × ℚ)) (fuel : Nat) (start total : ℚ) :
    Except String Metricas :=
  let st0 : LoopState :=
    { pending := initPending requisicoes start,
      estados := initEstados servidores, completed := [] }
  match runLoop policy quantum oracle fuel 0 st0 with
  | .error e => .error e
  | .ok st => metricas st.completed st.estados total

/-- m is the first element of l attaining the minimum of key: l splits as a
prefix of strictly larger keys, then m, then a suffix of keys at least key m.
This is the behavior of Python min on a list with a key function. -/
def isFirstArgmin (key : Nat → Int) (l : List Nat) (m : Nat) : Prop :=
  ∃ l₁ l₂, l = l₁ ++ m :: l₂ ∧ (∀ x ∈ l₁, key m < key x) ∧
    ∀ x ∈ l₂, key m ≤ key x

/-- The alternate-candidate server choice exactly as the spec words it: among
free servers different from the last worker, minimum current load, and load
ties broken by the smallest server id. Defined from the spec text only to
compare it with chooseServer. -/
def specAlternateChoice (estados : Estados) (l : Nat) : Option Nat :=
  ((livresOf estados).filter fun x => decide (x ≠ l)).foldl
    (fun acc x =>
      match acc with
      | none => some x
      | some b =>
        if loadOf estados x < loadOf estados b ∨
            (loadOf estados x = loadOf estados b ∧ x < b) then some x
        else some b)
    none

/-- The capacity invariant of the spec: every server has 0 <= load <= cap. -/
def capInv (estados : Estados) : Prop :=
  ∀ p ∈ estados, 0 ≤ p.2.load ∧ p.2.load ≤ (p.2.cap : Int)

/-- The two events that concern one fixed task, as seen by the dispatch loop:
a dispatch of the task to some server, or a drained response for it. -/
inductive TEvent where
  | dispatch (sid : Nat)
  | response (sid : Nat)
deriving DecidableEq, Repr

/-- Ghost view of one task: its running flag together with the number of its
dispatches not yet answered by a response. -/
structure TaskGhost where
  running : Bool
  outstanding : Nat
deriving DecidableEq, Repr

/-- One step of the per-task protocol the loop enforces: a task is dispatched
only when not running (the eligibility filter) and the dispatch sets running;
a response is matched to an outstanding dispatch (the worker contract: one
response per received message) and resets running. -/
def stepGhost : TaskGhost → TEvent → Option TaskGhost
  | g, .dispatch _ =>
    if g.running then none else some { running := true,
                                       outstanding := g.outstanding + 1 }
  | g, .response _ =>
    if g.outstanding = 0 then none
    else some { running := false, outstanding := g.outstanding - 1 }

/-- Folding the per-task protocol over a whole event history. -/
def runTrace : TaskGhost → List TEvent → Option TaskGhost
  | g, [] => some g
  | g, e :: es =>
    match stepGhost g e with
    | none => none
    | some g1 => runTrace g1 es

/-- Decidable equality of Except results, used to evaluate the embedded loop
on concrete inputs. -/
instance {ε α : Type} [DecidableEq ε] [DecidableEq α] :
    DecidableEq (Except ε α) := fun a b =>
  match a, b with
  | .error x, .error y =>
    if h : x = y then isTrue (by rw [h])
    else isFalse (by intro hc; injection hc; exact h (by assumption))
  | .error _, .ok _ => isFalse (by intro hc; exact Except.noConfusion hc)
  | .ok _, .error _ => isFalse (by intro hc; exact Except.noConfusion hc)
  | .ok x, .ok y =>
    if h : x = y then isTrue (by rw [h])
    else isFalse (by intro hc; injection hc; exact h (by assumption))

/-
  Concrete inputs used by counterexamples and witnesses.
-/

/-- Servers configured in the order 3, 2, 1; server 3 is at capacity, servers
2 and 1 are free with equal load 0. -/
def exC1estados : Estados := [(3, ⟨1, 1, 0⟩), (2, ⟨1, 0, 0⟩), (1, ⟨1, 0, 0⟩)]

/-- Server 1 full, server 2 free. -/
def exC1w : Estados := [(1, ⟨2, 2, 0⟩), (2, ⟨2, 0, 0⟩)]

/-- A task previously run on server 3. -/
def exC2t : Tarefa :=
  { id := 7, prioridade := 2, tempo_exec := 5, arrival_time := 0,
    remaining := 3, running := false, last_worker := some 3 }

/-- The assignment result for exC2t on exC1estados under rr with quantum 2:
server 2 is chosen (first free alternate of minimal load) and a migration
from server 3 to server 2 is emitted. -/
def exC2r : AssignResult :=
  { t2 := { id := 7, prioridade := 2, tempo_exec := 5, arrival_time := 0,
            remaining := 3, running := true, last_worker := some 2 },
    estados := [(3, ⟨1, 1, 0⟩), (2, ⟨1, 1, 0⟩), (1, ⟨1, 0, 0⟩)],
    completed := [(7, { arrival := 0, endT := none })],
    msg := { id := 7, priority := 2, remaining := 3, slice := some 2,
             exec_time := none },
    ev := .migration 7 3 2 }

/-- A loop state with one running task (id 1, on server 2) and an open
completion record for it. -/
def exC3st : LoopState :=
  { pending := [{ id := 1, prioridade := 1, tempo_exec := 5, arrival_time := 0,
                  remaining := 5, running := true, last_worker := some 2 }],
    estados := [(3, ⟨1, 1, 0⟩), (2, ⟨1, 1, 0⟩), (1, ⟨1, 0, 0⟩)],
    completed := [(1, { arrival := 0, endT := none })] }

/-- A completing response for task 1 from worker 2. -/
def exC3resp : Resposta :=
  { worker := 2, id := 1, duration := 4, remaining := 0, cpu := 50,
    memory := 100 }

/-- The drained state after exC3resp at time 5. -/
def exC3st1 : LoopState :=
  { pending := [],
    estados := [(3, ⟨1, 1, 0⟩), (2, ⟨1, 0, 4⟩), (1, ⟨1, 0, 0⟩)],
    completed := [(1, { arrival := 0, endT := some 5 })] }

/-- One closed completion record: arrival 0, end 4. -/
def exC4completed : Completed := [(1, { arrival := 0, endT := some 4 })]

/-- One server that was busy the whole 4 time units. -/
def exC4estados : Estados := [(1, ⟨1, 0, 4⟩)]

/-- A pending list with one task that still has remaining work. -/
def exC5pending : List Tarefa :=
  [{ id := 1, prioridade := 1, tempo_exec := 5, arrival_time := 0,
     remaining := 3, running := false, last_worker := none }]

/-- A task used to instantiate the message-construction claim. -/
def exC6t : Tarefa :=
  { id := 4, prioridade := 1, tempo_exec := 9, arrival_time := 0,
    remaining := 5, running := false, last_worker := none }

/-- A never-run task to dispatch on exC1w. -/
def exC7t : Tarefa :=
  { id := 9, prioridade := 1, tempo_exec := 2, arrival_time := 0,
    remaining := 2, running := false, last_worker := none }

/-- The assignment result for exC7t on exC1w: server 2 is the only free
server and receives the task. -/
def exC7r : AssignResult :=
  { t2 := { id := 9, prioridade := 1, tempo_exec := 2, arrival_time := 0,
            remaining := 2, running := true, last_worker := some 2 },
    estados := [(1, ⟨2, 2, 0⟩), (2, ⟨2, 1, 0⟩)],
    completed := [(9, { arrival := 0, endT := none })],
    msg := { id := 9, priority := 1, remaining := 2, slice := none,
             exec_time := some 2 },
    ev := .assignment 9 2 }

/-- A loop state whose only pending task is id 1; no task 99 exists. -/
def exC9st : LoopState :=
  { pending := [{ id := 1, prioridade := 1, tempo_exec := 5, arrival_time := 0,
                  remaining := 5, running := true, last_worker := some 2 }],
    estados := [(2, ⟨1, 1, 0⟩)],
    completed := [(1, { arrival := 0, endT := none })] }

/-- A response for the unknown task id 99 with positive remaining time. -/
def exC9resp : Resposta :=
  { worker := 2, id := 99, duration := 1, remaining := 2, cpu := 10,
    memory := 20 }

/-
  Helper lemmas.
-/

/-- The fold inside pyMin never increases the key of the accumulator. -/
theorem foldl_pyMin_key_le (key : Nat → Int) (l : List Nat) (b : Nat) :
    key (l.foldl (fun b y => if key y < key b then y else b) b) ≤ key b := by
  induction l generalizing b with
  | nil => simp
  | cons y ys ih =>
    simp only [List.foldl_cons]
    by_cases h : key y < key b
    · rw [if_pos h]
      exact le_trans (ih y) (le_of_lt h)
    · rw [if_neg h]
      exact ih b

/-- The fold inside pyMin computes the first argmin of b :: l: it replaces
the accumulator only on a strictly smaller key, exactly like Python min. -/
theorem foldl_pyMin_isFirstArgmin (key : Nat → Int) (l : List Nat) (b : Nat) :
    isFirstArgmin key (b :: l)
      (l.foldl (fun b y => if key y < key b then y else b) b) := by
  induction l generalizing b with
  | nil => exact ⟨[], [], rfl, by simp, by simp⟩
  | cons y ys ih =>
    simp only [List.foldl_cons]
    by_cases h : key y < key b
    · rw [if_pos h]
      obtain ⟨l₁, l₂, heq, h₁, h₂⟩ := ih y
      refine ⟨b :: l₁, l₂, by rw [List.cons_append, ← heq], ?_, h₂⟩
      intro x hx
      rcases List.mem_cons.mp hx with rfl | hx
      · exact lt_of_le_of_lt (foldl_pyMin_key_le key ys y) h
      · exact h₁ x hx
    · rw [if_neg h]
      have hby : key b ≤ key y := le_of_not_lt h
      obtain ⟨l₁, l₂, heq, h₁, h₂⟩ := ih b
      cases l₁ with
      | nil =>
        simp only [List.nil_append] at heq
        obtain ⟨hbm, hysl⟩ := List.cons.inj heq
        refine ⟨[], y :: ys, by rw [List.nil_append, ← hbm], by simp, ?_⟩
        intro x hx
        rcases List.mem_cons.mp hx with rfl | hx
        · rw [← hbm]
          exact hby
        · rw [hysl] at hx
          exact h₂ x hx
      | cons a l₁ =>
        simp only [List.cons_append] at heq
        obtain ⟨hba, hys⟩ := List.cons.inj heq
        refine ⟨b :: y :: l₁, l₂, by rw [List.cons_append, List.cons_append,
          ← hys], ?_, h₂⟩
        intro x hx
        have hmb : key (ys.foldl (fun b y => if key y < key b then y else b) b)
            < key b := by
          have := h₁ a (List.mem_cons_self a l₁)
          rwa [← hba] at this
        rcases List.mem_cons.mp hx with rfl | hx
        · exact hmb
        rcases List.mem_cons.mp hx with rfl | hx
        · exact lt_of_lt_of_le hmb hby
        · exact h₁ x (List.mem_cons_of_mem a hx)

/-- pyMin returns the first element attaining the minimum key. -/
theorem pyMin_isFirstArgmin (key : Nat → Int) (l : List Nat) (m : Nat)
    (h : pyMin key l = some m) : isFirstArgmin key l m := by
  cases l with
  | nil => simp [pyMin] at h
  | cons x xs =>
    simp only [pyMin, Option.some.injEq] at h
    rw [← h]
    exact foldl_pyMin_isFirstArgmin key xs x

/-- A first argmin is a member of the list. -/
theorem isFirstArgmin_mem {key : Nat → Int} {l : List Nat} {m : Nat}
    (h : isFirstArgmin key l m) : m ∈ l := by
  obtain ⟨l₁, l₂, rfl, -, -⟩ := h
  simp

/-- A first argmin attains the minimum key. -/
theorem isFirstArgmin_min {key : Nat → Int} {l : List Nat} {m : Nat}
    (h : isFirstArgmin key l m) : ∀ x ∈ l, key m ≤ key x := by
  obtain ⟨l₁, l₂, rfl, h₁, h₂⟩ := h
  intro x hx
  rcases List.mem_append.mp hx with hx | hx
  · exact le_of_lt (h₁ x hx)
  · rcases List.mem_cons.mp hx with rfl | hx
    · exact le_refl _
    · exact h₂ x hx

/-- pyMin picks from the list. -/
theorem pyMin_mem {key : Nat → Int} {l : List Nat} {m : Nat}
    (h : pyMin key l = some m) : m ∈ l :=
  isFirstArgmin_mem (pyMin_isFirstArgmin _ _ _ h)

/-- The chosen server is always one of the free servers. -/
theorem chooseServer_mem {estados : Estados} {livres : List Nat}
    {lw : Option Nat} {sid : Nat}
    (h : chooseServer estados livres lw = some sid) : sid ∈ livres := by
  cases lw with
  | none => exact pyMin_mem h
  | some l =>
    simp only [chooseServer] at h
    by_cases hc : (livres.filter fun x => decide (x ≠ l)).isEmpty
    · rw [if_pos hc] at h
      exact pyMin_mem h
    · rw [if_neg hc] at h
      exact List.mem_of_mem_filter (pyMin_mem h)

/-
  Claim theorems.
-/

/-- C1 (amended): for a task with a last worker, when an alternate free
server exists the loop picks the first minimal-load candidate in server
configuration order (the tie-break is configuration order, not smallest id);
when none exists, or the task never ran, it picks the first minimal-load
free server overall. -/
theorem C1_migration_choice (estados : Estados) (lw : Option Nat) (sid : Nat)
    (h : chooseServer estados (livresOf estados) lw = some sid) :
    (lw = none → isFirstArgmin (loadOf estados) (livresOf estados) sid) ∧
    ∀ l, lw = some l →
      ((((livresOf estados).filter fun x => decide (x ≠ l)) = []) →
        isFirstArgmin (loadOf estados) (livresOf estados) sid) ∧
      ((((livresOf estados).filter fun x => decide (x ≠ l)) ≠ []) →
        sid ≠ l ∧
        isFirstArgmin (loadOf estados)
          ((livresOf estados).filter fun x => decide (x ≠ l)) sid) := by
  constructor
  · rintro rfl
    exact pyMin_isFirstArgmin _ _ _ h
  · rintro l rfl
    simp only [chooseServer] at h
    constructor
    · intro hc
      rw [hc] at h
      simp only [List.isEmpty_nil, if_true] at h
      exact pyMin_isFirstArgmin _ _ _ h
    · intro hc
      have hc2 : ((livresOf estados).filter fun x => decide (x ≠ l)).isEmpty
          = false := by
        rw [List.isEmpty_eq_false_iff_exists_mem]
        rcases List.exists_mem_of_ne_nil _ hc with ⟨x, hx⟩
        exact ⟨x, hx⟩
      rw [hc2] at h
      simp only [Bool.false_eq_true, if_false] at h
      have hmem := pyMin_mem h
      refine ⟨?_, pyMin_isFirstArgmin _ _ _ h⟩
      have := (List.mem_filter.mp hmem).2
      exact of_decide_eq_true this

/-- C1 is false as stated: on exC1estados the free alternates to last worker
3 are servers 2 and 1, both with load 0; the smallest-id tie-break of the
claim (specAlternateChoice) selects server 1 but the loop selects server 2,
which comes first in the configuration. -/
theorem C1_counterexample :
    chooseServer exC1estados (livresOf exC1estados) (some 3) = some 2 ∧
    specAlternateChoice exC1estados 3 = some 1 ∧
    (2 : Nat) ∈ livresOf exC1estados ∧ (1 : Nat) ∈ livresOf exC1estados ∧
    loadOf exC1estados 1 = loadOf exC1estados 2 ∧
    ¬ (2 : Nat) ≤ 1 := by decide

/-- Witness for C1: on exC1w a task last run on server 1 goes to server 2,
the first minimal-load alternate candidate. -/
theorem C1_migration_choice_witness :
    (2 : Nat) ≠ 1 ∧
    isFirstArgmin (loadOf exC1w)
      ((livresOf exC1w).filter fun x => decide (x ≠ 1)) 2 :=
  ((C1_migration_choice exC1w (some 1) 2 (by decide)).2 1 rfl).2 (by decide)

/-- Looking up the updated key after a dict update sees the updated value. -/
theorem lookupAssoc_updAssoc_self {β : Type} (l : List (Nat × β)) (k : Nat)
    (f : β → β) :
    lookupAssoc (updAssoc l k f) k
      = (lookupAssoc l k).map fun p => (p.1, f p.2) := by
  induction l with
  | nil => rfl
  | cons p ps ih =>
    by_cases hp : p.1 = k
    · simp only [updAssoc, List.map_cons, if_pos hp, lookupAssoc]
      simp
    · simp only [updAssoc, List.map_cons, if_neg hp, lookupAssoc]
      simpa only [updAssoc] using ih

/-- Looking up any other key after a dict update sees the old dict. -/
theorem lookupAssoc_updAssoc_other {β : Type} (l : List (Nat × β)) (k s : Nat)
    (f : β → β) (hs : s ≠ k) :
    lookupAssoc (updAssoc l k f) s = lookupAssoc l s := by
  induction l with
  | nil => rfl
  | cons p ps ih =>
    by_cases hp : p.1 = k
    · have hps : ¬ p.1 = s := fun he => hs (he ▸ hp)
      simp only [updAssoc, List.map_cons, if_pos hp, lookupAssoc]
      rw [if_neg hps, if_neg hps]
      exact ih
    · simp only [updAssoc, List.map_cons, if_neg hp, lookupAssoc]
      by_cases hq : p.1 = s
      · rw [if_pos hq, if_pos hq]
      · rw [if_neg hq, if_neg hq]
        exact ih

/-- With unique keys, looking up the key of a member finds that member. -/
theorem lookupAssoc_of_mem_nodup {β : Type} {l : List (Nat × β)}
    {q : Nat × β} (hnd : (l.map Prod.fst).Nodup) (hq : q ∈ l) :
    lookupAssoc l q.1 = some q := by
  induction l with
  | nil => cases hq
  | cons p ps ih =>
    simp only [List.map_cons, List.nodup_cons] at hnd
    rcases List.mem_cons.mp hq with rfl | hq
    · simp [lookupAssoc]
    · have hne : ¬ p.1 = q.1 :=
        fun he => hnd.1 (he ▸ List.mem_map_of_mem Prod.fst hq)
      simp only [lookupAssoc]
      rw [if_neg hne]
      exact ih hnd.2 hq

/-- Membership in an updated dict comes from a member of the old dict. -/
theorem mem_updAssoc {β : Type} {l : List (Nat × β)} {k : Nat} {f : β → β}
    {x : Nat × β} (hx : x ∈ updAssoc l k f) :
    ∃ q ∈ l, x = if q.1 = k then (q.1, f q.2) else q := by
  simp only [updAssoc, List.mem_map] at hx
  obtain ⟨q, hq, hqe⟩ := hx
  exact ⟨q, hq, hqe.symm⟩

/-- Destructor for a successful assignment: it is fully determined by the
chosen server. -/
theorem assignOne_spec {policy : String} {quantum : ℚ} {estados : Estados}
    {completed : Completed} {t : Tarefa} {r : AssignResult}
    (h : assignOne policy quantum estados completed t = some r) :
    ∃ sid, chooseServer estados (livresOf estados) t.last_worker = some sid ∧
      r = { t2 := { t with running := true, last_worker := some sid },
            estados := incLoad estados sid,
            completed :=
              if (lookupAssoc completed t.id).isSome then completed
              else completed ++ [(t.id, { arrival := t.arrival_time,
                                          endT := none })],
            msg := buildMsg policy quantum t,
            ev := emitEvent t sid } := by
  unfold assignOne at h
  cases hs : chooseServer estados (livresOf estados) t.last_worker with
  | none =>
    rw [hs] at h
    exact absurd h (by simp)
  | some sid =>
    rw [hs] at h
    simp only [Option.some.injEq] at h
    exact ⟨sid, rfl, h.symm⟩

/-- Destructor for a successful drain step: the server update, and the two
branches on the remaining time of the response. -/
theorem drainOne_ok_spec {st : LoopState} {resp : Resposta} {now2 : ℚ}
    {st1 : LoopState} {ev : Evento}
    (h : drainOne st resp now2 = .ok (st1, ev)) :
    (lookupAssoc st.estados resp.worker).isSome = true ∧
    st1.estados = updAssoc st.estados resp.worker (fun s =>
      { s with busy := s.busy + resp.duration, load := s.load - 1 }) ∧
    ((resp.remaining = 0 ∧
       (lookupAssoc st.completed resp.id).isSome = true ∧
       st1.pending = (updateTask resp.id resp.remaining st.pending).filter
         (fun p => decide (p.id ≠ resp.id)) ∧
       st1.completed = setEnd st.completed resp.id now2 ∧
       ev = Evento.completion resp.id resp.worker) ∨
     (resp.remaining ≠ 0 ∧
       st1.pending = updateTask resp.id resp.remaining st.pending ∧
       st1.completed = st.completed ∧
       ev = Evento.preemption resp.id resp.worker resp.remaining)) := by
  unfold drainOne at h
  by_cases hw : (lookupAssoc st.estados resp.worker).isNone
  · rw [if_pos hw] at h
    exact absurd h (by simp)
  · rw [if_neg hw] at h
    refine ⟨by simpa [Option.isNone_iff_eq_none, Option.isSome_iff_ne_none]
      using hw, ?_⟩
    by_cases hz : resp.remaining = 0
    · rw [if_pos hz] at h
      by_cases hcm : (lookupAssoc st.completed resp.id).isNone
      · rw [if_pos hcm] at h
        exact absurd h (by simp)
      · rw [if_neg hcm] at h
        simp only [Except.ok.injEq, Prod.mk.injEq] at h
        obtain ⟨hst, hev⟩ := h
        refine ⟨by rw [← hst], Or.inl ⟨hz, ?_, by rw [← hst], by rw [← hst],
          hev.symm⟩⟩
        simpa [Option.isNone_iff_eq_none, Option.isSome_iff_ne_none] using hcm
    · rw [if_neg hz] at h
      simp only [Except.ok.injEq, Prod.mk.injEq] at h
      obtain ⟨hst, hev⟩ := h
      exact ⟨by rw [← hst], Or.inr ⟨hz, by rw [← hst], by rw [← hst],
        hev.symm⟩⟩

/-- If some pending task matches the response id, then after updateTask some
task matches it with the new remaining time and not running. -/
theorem updateTask_found (rid : Nat) (rrem : ℚ) (l : List Tarefa)
    (hex : ∃ p ∈ l, p.id = rid) :
    ∃ p ∈ updateTask rid rrem l, p.id = rid ∧ p.remaining = rrem ∧
      p.running = false := by
  induction l with
  | nil =>
    obtain ⟨p, hp, -⟩ := hex
    cases hp
  | cons q qs ih =>
    by_cases hq : q.id = rid
    · refine ⟨{ q with remaining := rrem, running := false }, ?_, hq, rfl, rfl⟩
      simp only [updateTask, if_pos hq]
      exact List.mem_cons_self _ _
    · obtain ⟨p, hp, hpid⟩ := hex
      rcases List.mem_cons.mp hp with rfl | hp
      · exact absurd hpid hq
      · obtain ⟨p1, hp1, hprops⟩ := ih ⟨p, hp, hpid⟩
        refine ⟨p1, ?_, hprops⟩
        simp only [updateTask, if_neg hq]
        exact List.mem_cons_of_mem _ hp1

/-- C3: a drained response decrements the load of the originating server and
adds the duration to its busy time (other servers untouched); on remaining 0
it emits a completion, removes the task from pending and closes the
completion record at now2; otherwise it emits a preemption, leaves the
records untouched and the task stays pending, not running, with the new
remaining time. -/
theorem C3_response (st : LoopState) (resp : Resposta) (now2 : ℚ)
    (st1 : LoopState) (ev : Evento)
    (h : drainOne st resp now2 = .ok (st1, ev)) :
    loadOf st1.estados resp.worker = loadOf st.estados resp.worker - 1 ∧
    busyOf st1.estados resp.worker
      = busyOf st.estados resp.worker + resp.duration ∧
    (∀ s, s ≠ resp.worker →
      loadOf st1.estados s = loadOf st.estados s ∧
      busyOf st1.estados s = busyOf st.estados s) ∧
    (resp.remaining = 0 →
      ev = Evento.completion resp.id resp.worker ∧
      (∀ p ∈ st1.pending, p.id ≠ resp.id) ∧
      ∀ cr, recOf st.completed resp.id = some cr →
        recOf st1.completed resp.id
          = some { arrival := cr.arrival, endT := some now2 }) ∧
    (resp.remaining ≠ 0 →
      ev = Evento.preemption resp.id resp.worker resp.remaining ∧
      st1.completed = st.completed ∧
      ((∃ p ∈ st.pending, p.id = resp.id) →
        ∃ p ∈ st1.pending, p.id = resp.id ∧ p.remaining = resp.remaining ∧
          p.running = false)) := by
  obtain ⟨hw, hest, hbr⟩ := drainOne_ok_spec h
  refine ⟨?_, ?_, ?_, ?_, ?_⟩
  · rw [hest]
    unfold loadOf
    rw [lookupAssoc_updAssoc_self]
    cases hl : lookupAssoc st.estados resp.worker with
    | none =>
      rw [hl] at hw
      simp at hw
    | some p => simp
  · rw [hest]
    unfold busyOf
    rw [lookupAssoc_updAssoc_self]
    cases hl : lookupAssoc st.estados resp.worker with
    | none =>
      rw [hl] at hw
      simp at hw
    | some p => simp
  · intro s hsne
    rw [hest]
    unfold loadOf busyOf
    rw [lookupAssoc_updAssoc_other _ _ _ _ hsne]
    exact ⟨rfl, rfl⟩
  · intro hz
    rcases hbr with ⟨-, hcm, hpend, hcomp, hev⟩ | ⟨hnz, -, -, -⟩
    · refine ⟨hev, ?_, ?_⟩
      · intro p hp
        rw [hpend] at hp
        exact of_decide_eq_true (List.mem_filter.mp hp).2
      · intro cr hcr
        rw [hcomp]
        unfold recOf setEnd
        rw [lookupAssoc_updAssoc_self]
        unfold recOf at hcr
        cases hl : lookupAssoc st.completed resp.id with
        | none =>
          rw [hl] at hcr
          simp at hcr
        | some q =>
          rw [hl] at hcr
          simp only [Option.map_some'] at hcr ⊢
          rw [Option.some.injEq] at hcr
          rw [hcr]
    · exact absurd hz hnz
  · intro hnz
    rcases hbr with ⟨hz, -, -, -, -⟩ | ⟨-, hpend, hcomp, hev⟩
    · exact absurd hz hnz
    · refine ⟨hev, hcomp, ?_⟩
      intro hex
      rw [hpend]
      exact updateTask_found _ _ _ hex

/-- Witness for C3: on exC3st the completing response exC3resp from worker 2
at time 5 yields exC3st1 and a completion event. -/
theorem C3_response_witness :
    loadOf exC3st1.estados exC3resp.worker
      = loadOf exC3st.estados exC3resp.worker - 1 ∧
    busyOf exC3st1.estados exC3resp.worker
      = busyOf exC3st.estados exC3resp.worker + exC3resp.duration ∧
    (∀ s, s ≠ exC3resp.worker →
      loadOf exC3st1.estados s = loadOf exC3st.estados s ∧
      busyOf exC3st1.estados s = busyOf exC3st.estados s) ∧
    (exC3resp.remaining = 0 →
      Evento.completion 1 2 = Evento.completion exC3resp.id exC3resp.worker ∧
      (∀ p ∈ exC3st1.pending, p.id ≠ exC3resp.id) ∧
      ∀ cr, recOf exC3st.completed exC3resp.id = some cr →
        recOf exC3st1.completed exC3resp.id
          = some { arrival := cr.arrival, endT := some 5 }) ∧
    (exC3resp.remaining ≠ 0 →
      Evento.completion 1 2
        = Evento.preemption exC3resp.id exC3resp.worker exC3resp.remaining ∧
      exC3st1.completed = exC3st.completed ∧
      ((∃ p ∈ exC3st.pending, p.id = exC3resp.id) →
        ∃ p ∈ exC3st1.pending, p.id = exC3resp.id ∧
          p.remaining = exC3resp.remaining ∧ p.running = false)) :=
  C3_response exC3st exC3resp 5 exC3st1 (Evento.completion 1 2)
    (by simp [drainOne, lookupAssoc, updAssoc, updateTask, setEnd, exC3st,
      exC3resp, exC3st1])

/-- C2: every assignment updates last_worker to the chosen server, and the
emitted event is a migration exactly when the task had a last worker that
differs from the chosen server, a plain assignment event otherwise. -/
theorem C2_events (policy : String) (quantum : ℚ) (estados : Estados)
    (completed : Completed) (t : Tarefa) (r : AssignResult)
    (h : assignOne policy quantum estados completed t = some r) :
    ∃ sid, chooseServer estados (livresOf estados) t.last_worker = some sid ∧
      r.t2.last_worker = some sid ∧
      ((∃ a b c, r.ev = Evento.migration a b c) ↔
        ∃ lw, t.last_worker = some lw ∧ lw ≠ sid) ∧
      (∀ lw, t.last_worker = some lw → lw ≠ sid →
        r.ev = Evento.migration t.id lw sid) ∧
      (∀ lw, t.last_worker = some lw → lw = sid →
        r.ev = Evento.assignment t.id sid) ∧
      (t.last_worker = none → r.ev = Evento.assignment t.id sid) := by
  obtain ⟨sid, hs, rfl⟩ := assignOne_spec h
  refine ⟨sid, hs, rfl, ?_, ?_, ?_, ?_⟩
  · cases hlw : t.last_worker with
    | none =>
      simp only [emitEvent, hlw]
      constructor
      · rintro ⟨a, b, c, hc⟩
        exact absurd hc (by simp)
      · rintro ⟨lw, hlw2, -⟩
        exact absurd hlw2 (by simp)
    | some lw =>
      simp only [emitEvent, hlw]
      by_cases hd : lw ≠ sid
      · rw [if_pos hd]
        exact ⟨fun _ => ⟨lw, rfl, hd⟩, fun _ => ⟨t.id, lw, sid, rfl⟩⟩
      · rw [if_neg hd]
        constructor
        · rintro ⟨a, b, c, hc⟩
          exact absurd hc (by simp)
        · rintro ⟨lw2, hlw2, hne⟩
          rw [Option.some.injEq] at hlw2
          subst hlw2
          exact absurd hne hd
  · intro lw hlw hd
    simp only [emitEvent, hlw]
    rw [if_pos hd]
  · intro lw hlw hd
    simp only [emitEvent, hlw]
    rw [if_neg (by simpa using hd)]
  · intro hlw
    simp only [emitEvent, hlw]

/-- Witness for C2: assigning exC2t (last worker 3) on exC1estados sends it
to server 2 and emits the migration event from 3 to 2. -/
theorem C2_events_witness :
    ∃ sid, chooseServer exC1estados (livresOf exC1estados)
        exC2t.last_worker = some sid ∧
      exC2r.t2.last_worker = some sid ∧
      ((∃ a b c, exC2r.ev = Evento.migration a b c) ↔
        ∃ lw, exC2t.last_worker = some lw ∧ lw ≠ sid) ∧
      (∀ lw, exC2t.last_worker = some lw → lw ≠ sid →
        exC2r.ev = Evento.migration exC2t.id lw sid) ∧
      (∀ lw, exC2t.last_worker = some lw → lw = sid →
        exC2r.ev = Evento.assignment exC2t.id sid) ∧
      (exC2t.last_worker = none →
        exC2r.ev = Evento.assignment exC2t.id sid) :=
  C2_events ("rr") 2 exC1estados [] exC2t exC2r (by decide)

/-- C4: metrics computed successfully satisfy the three defining equations:
mean response time times the number of completed tasks equals the sum of end
minus arrival, throughput times elapsed time equals the number of completed
tasks, and utilization times the number of servers equals the sum of the
per-server busy percentages of the elapsed time. -/
theorem C4_metrics (completed : Completed) (estados : Estados) (total : ℚ)
    (m : Metricas) (h : metricas completed estados total = .ok m) :
    completed ≠ [] ∧ total ≠ 0 ∧ estados ≠ [] ∧
    m.tempo_medio * (completed.length : ℚ)
      = (completed.map fun c => c.2.endT.getD 0 - c.2.arrival).sum ∧
    m.throughput * total = (completed.length : ℚ) ∧
    m.utilizacao * (estados.length : ℚ)
      = (estados.map fun p => p.2.busy / total * 100).sum := by
  simp only [metricas] at h
  by_cases h1 : completed.any fun c => c.2.endT.isNone
  · rw [if_pos h1] at h
    exact absurd h (by simp)
  · rw [if_neg h1] at h
    by_cases h2 : completed.length = 0
    · rw [if_pos h2] at h
      exact absurd h (by simp)
    · rw [if_neg h2] at h
      by_cases h3 : total = 0
      · rw [if_pos h3] at h
        exact absurd h (by simp)
      · rw [if_neg h3] at h
        by_cases h4 : estados.length = 0
        · rw [if_pos h4] at h
          exact absurd h (by simp)
        · rw [if_neg h4] at h
          simp only [Except.ok.injEq] at h
          subst h
          have hlen : ((completed.length : ℚ)) ≠ 0 := Nat.cast_ne_zero.mpr h2
          have hsl : ((estados.length : ℚ)) ≠ 0 := Nat.cast_ne_zero.mpr h4
          refine ⟨fun hc => h2 (by rw [hc]; rfl), h3,
            fun hc => h4 (by rw [hc]; rfl), ?_, ?_, ?_⟩
          · exact div_mul_cancel₀ _ hlen
          · exact div_mul_cancel₀ _ h3
          · exact div_mul_cancel₀ _ hsl

/-- Witness for C4: one completed task with arrival 0 and end 4 and elapsed
time 4 gives mean response time 4 and throughput 1/4 (and utilization 100
for the single server that was busy the whole run). -/
theorem C4_metrics_witness :
    exC4completed ≠ [] ∧ (4 : ℚ) ≠ 0 ∧ exC4estados ≠ [] ∧
    (Metricas.mk 4 (1 / 4) 100).tempo_medio * (exC4completed.length : ℚ)
      = (exC4completed.map fun c => c.2.endT.getD 0 - c.2.arrival).sum ∧
    (Metricas.mk 4 (1 / 4) 100).throughput * 4 = (exC4completed.length : ℚ) ∧
    (Metricas.mk 4 (1 / 4) 100).utilizacao * (exC4estados.length : ℚ)
      = (exC4estados.map fun p => p.2.busy / 4 * 100).sum :=
  C4_metrics exC4completed exC4estados 4 (Metricas.mk 4 (1 / 4) 100)
    (by simp [metricas, exC4completed, exC4estados])

/-- Every task written back by the inner assignment loop is either the task
just dispatched or was already pending. -/
theorem setTask_mem {pending : List Tarefa} {t p : Tarefa}
    (h : p ∈ setTask pending t) : p = t ∨ p ∈ pending := by
  simp only [setTask, List.mem_map] at h
  obtain ⟨q, hq, hqe⟩ := h
  by_cases hid : q.id = t.id
  · rw [if_pos hid] at hqe
    exact Or.inl hqe.symm
  · rw [if_neg hid] at hqe
    exact Or.inr (hqe ▸ hq)

/-- Every task in the updated pending list either was there before or is the
response target carrying the new remaining time and not running. -/
theorem updateTask_mem {rid : Nat} {rrem : ℚ} {l : List Tarefa} {p : Tarefa}
    (h : p ∈ updateTask rid rrem l) :
    p ∈ l ∨ ∃ q ∈ l, q.id = rid ∧
      p = { q with remaining := rrem, running := false } := by
  induction l with
  | nil =>
    simp only [updateTask] at h
    cases h
  | cons q qs ih =>
    by_cases hq : q.id = rid
    · simp only [updateTask, if_pos hq] at h
      rcases List.mem_cons.mp h with rfl | h
      · exact Or.inr ⟨q, List.mem_cons_self _ _, hq, rfl⟩
      · exact Or.inl (List.mem_cons_of_mem _ h)
    · simp only [updateTask, if_neg hq] at h
      rcases List.mem_cons.mp h with rfl | h
      · exact Or.inl (List.mem_cons_self _ _)
      · rcases ih h with hl | ⟨q2, hq2, hprops⟩
        · exact Or.inl (List.mem_cons_of_mem _ hl)
        · exact Or.inr ⟨q2, List.mem_cons_of_mem _ hq2, hprops⟩

/-- The inner assignment loop preserves strict positivity of remaining work
of every pending task (assignments never change remaining times). -/
theorem assignPhaseAux_pos (policy : String) (quantum : ℚ) :
    ∀ (fuel : Nat) (elegiveis : List Tarefa) (st : LoopState),
      (∀ t ∈ st.pending, 0 < t.remaining) →
      (∀ t ∈ elegiveis, 0 < t.remaining) →
      ∀ t ∈ (assignPhaseAux policy quantum fuel elegiveis st).1.pending,
        0 < t.remaining := by
  intro fuel
  induction fuel with
  | zero =>
    intro el st hp he
    simpa [assignPhaseAux] using hp
  | succ n ih =>
    intro el st hp he
    simp only [assignPhaseAux]
    by_cases hl : (livresOf st.estados).isEmpty
    · rw [if_pos hl]
      exact hp
    · rw [if_neg hl]
      cases el with
      | nil => simpa [next_task] using hp
      | cons t rest =>
        simp only [next_task]
        cases ha : assignOne policy quantum st.estados st.completed t with
        | none => simpa using hp
        | some r =>
          obtain ⟨sid, hs, hr⟩ := assignOne_spec ha
          have hp1 : ∀ x ∈ setTask st.pending r.t2, 0 < x.remaining := by
            intro x hx
            rcases setTask_mem hx with rfl | hx2
            · rw [hr]
              exact he t (List.mem_cons_self _ _)
            · exact hp x hx2
          have he1 : ∀ x ∈ rest, 0 < x.remaining :=
            fun x hx => he x (List.mem_cons_of_mem _ hx)
          show ∀ t ∈ (assignPhaseAux policy quantum n rest
            { pending := setTask st.pending r.t2, estados := r.estados,
              completed := r.completed }).1.pending, 0 < t.remaining
          exact ih rest _ hp1 he1

/-- C5: with strictly positive execution times, every pending task keeps
strictly positive remaining work through initialization, assignment phases
and response drains, and under that invariant the exit condition of the loop
holds exactly when the pending set is empty. -/
theorem C5_exit_iff_empty :
    (∀ reqs (start : ℚ), (∀ r ∈ reqs, 0 < r.tempo_exec) →
      ∀ t ∈ initPending reqs start, 0 < t.remaining) ∧
    (∀ policy quantum st, (∀ t ∈ st.pending, 0 < t.remaining) →
      ∀ t ∈ (assignPhase policy quantum st).1.pending, 0 < t.remaining) ∧
    (∀ st resp now2 st1 ev, (∀ t ∈ st.pending, 0 < t.remaining) →
      0 ≤ resp.remaining → drainOne st resp now2 = .ok (st1, ev) →
      ∀ t ∈ st1.pending, 0 < t.remaining) ∧
    (∀ pending, (∀ t ∈ pending, 0 < t.remaining) →
      (exitCond pending = true ↔ pending = [])) := by
  refine ⟨?_, ?_, ?_, ?_⟩
  · intro reqs start h t ht
    simp only [initPending, List.mem_map] at ht
    obtain ⟨r, hr, rfl⟩ := ht
    exact h r hr
  · intro policy quantum st hp
    apply assignPhaseAux_pos policy quantum _ _ _ hp
    intro t ht
    have hmem : t ∈ elegiveisOf st.pending := by
      unfold reorder at ht
      split_ifs at ht with h1 h2
      · exact List.mem_mergeSort.mp ht
      · exact List.mem_mergeSort.mp ht
      · exact ht
    exact (of_decide_eq_true (List.mem_filter.mp hmem).2).2
  · intro st resp now2 st1 ev hp hnn h
    obtain ⟨-, -, hbr⟩ := drainOne_ok_spec h
    rcases hbr with ⟨hz, -, hpend, -, -⟩ | ⟨hnz, hpend, -, -⟩
    · intro t ht
      rw [hpend] at ht
      have hne : t.id ≠ resp.id :=
        of_decide_eq_true (List.mem_filter.mp ht).2
      rcases updateTask_mem (List.mem_of_mem_filter ht) with hl | ⟨q, hq, hqid, rfl⟩
      · exact hp t hl
      · exact absurd hqid hne
    · intro t ht
      rw [hpend] at ht
      rcases updateTask_mem ht with hl | ⟨q, hq, hqid, rfl⟩
      · exact hp t hl
      · exact lt_of_le_of_ne hnn (Ne.symm hnz)
  · intro pending hp
    constructor
    · intro hex
      cases pending with
      | nil => rfl
      | cons t ts =>
        exfalso
        have hpos := hp t (List.mem_cons_self _ _)
        simp only [exitCond, List.all_cons, Bool.and_eq_true] at hex
        exact absurd (of_decide_eq_true hex.1) (ne_of_gt hpos)
    · rintro rfl
      rfl

/-- Witness for C5: on a one-task pending list with remaining 3 the exit
condition is equivalent to the list being empty (and indeed neither holds). -/
theorem C5_exit_iff_empty_witness :
    exitCond exC5pending = true ↔ exC5pending = [] :=
  C5_exit_iff_empty.2.2.2 exC5pending (by simp [exC5pending])

/-- C6: the dispatch message carries exactly one of slice and exec_time:
under rr the slice is the remaining time capped by the quantum and no
exec_time is present; under any other policy the exec_time is the full
remaining time and no slice is present. -/
theorem C6_message (policy : String) (quantum : ℚ) (t : Tarefa) :
    (policy = "rr" →
      (buildMsg policy quantum t).slice = some (min quantum t.remaining) ∧
      (buildMsg policy quantum t).exec_time = none) ∧
    (policy ≠ "rr" →
      (buildMsg policy quantum t).exec_time = some t.remaining ∧
      (buildMsg policy quantum t).slice = none) ∧
    ((buildMsg policy quantum t).slice.isSome
      ↔ (buildMsg policy quantum t).exec_time = none) := by
  by_cases hp : policy = "rr"
  · simp [buildMsg, hp]
  · simp [buildMsg, hp]

/-- Witness for C6: under rr the message for exC6t has a slice and no
exec_time; under sjf it has the full remaining time and no slice. -/
theorem C6_message_witness :
    (buildMsg ("rr") 2 exC6t).slice = some (min 2 exC6t.remaining) ∧
    (buildMsg ("rr") 2 exC6t).exec_time = none ∧
    (buildMsg ("sjf") 2 exC6t).exec_time = some exC6t.remaining ∧
    (buildMsg ("sjf") 2 exC6t).slice = none :=
  ⟨((C6_message ("rr") 2 exC6t).1 rfl).1, ((C6_message ("rr") 2 exC6t).1 rfl).2,
   ((C6_message ("sjf") 2 exC6t).2.1 (by decide)).1,
   ((C6_message ("sjf") 2 exC6t).2.1 (by decide)).2⟩

/-- C7: the capacity invariant 0 <= load <= cap holds on the initial server
states, is preserved by every assignment (the chosen server is drawn from the
free list, which is recomputed after each assignment), and by every drained
response that answers an outstanding dispatch (the originating server has
load at least 1). -/
theorem C7_capacity :
    (∀ servidores, capInv (initEstados servidores)) ∧
    (∀ policy quantum estados completed t r,
      (estados.map Prod.fst).Nodup → capInv estados →
      assignOne policy quantum estados completed t = some r →
      capInv r.estados) ∧
    (∀ st resp now2 st1 ev,
      (st.estados.map Prod.fst).Nodup → capInv st.estados →
      1 ≤ loadOf st.estados resp.worker →
      drainOne st resp now2 = .ok (st1, ev) →
      capInv st1.estados) := by
  refine ⟨?_, ?_, ?_⟩
  · intro servidores p hp
    simp only [initEstados, List.mem_map] at hp
    obtain ⟨s, hs, rfl⟩ := hp
    exact ⟨le_refl 0, Int.ofNat_nonneg _⟩
  · intro policy quantum estados completed t r hnd hinv ha
    obtain ⟨sid, hs, rfl⟩ := assignOne_spec ha
    intro p hp
    obtain ⟨q, hq, hpe⟩ := mem_updAssoc (by simpa [incLoad] using hp)
    by_cases hqs : q.1 = sid
    · rw [if_pos hqs] at hpe
      subst hpe
      have hmem := chooseServer_mem hs
      simp only [livresOf, List.mem_map, List.mem_filter] at hmem
      obtain ⟨q2, ⟨hq2mem, hq2free⟩, hq2id⟩ := hmem
      have hq2q : q2 = q :=
        List.inj_on_of_nodup_map hnd hq2mem hq (by rw [hq2id, hqs])
      rw [hq2q] at hq2free
      have hfree : q.2.load < (q.2.cap : Int) := of_decide_eq_true hq2free
      have hnn := (hinv q hq).1
      refine ⟨?_, ?_⟩
      · show 0 ≤ q.2.load + 1
        omega
      · show q.2.load + 1 ≤ (q.2.cap : Int)
        omega
    · rw [if_neg hqs] at hpe
      rw [hpe]
      exact hinv q hq
  · intro st resp now2 st1 ev hnd hinv hld h
    obtain ⟨-, hest, -⟩ := drainOne_ok_spec h
    rw [hest]
    intro p hp
    obtain ⟨q, hq, hpe⟩ := mem_updAssoc hp
    by_cases hqs : q.1 = resp.worker
    · rw [if_pos hqs] at hpe
      subst hpe
      have hlk : lookupAssoc st.estados q.1 = some q :=
        lookupAssoc_of_mem_nodup hnd hq
      have hlq : loadOf st.estados resp.worker = q.2.load := by
        unfold loadOf
        rw [← hqs, hlk]
      rw [hlq] at hld
      have hub := (hinv q hq).2
      refine ⟨?_, ?_⟩
      · show 0 ≤ q.2.load - 1
        omega
      · show q.2.load - 1 ≤ (q.2.cap : Int)
        omega
    · rw [if_neg hqs] at hpe
      rw [hpe]
      exact hinv q hq

/-- Witness for C7: after assigning exC7t to the single free server of exC1w
every server still satisfies 0 <= load <= cap. -/
theorem C7_capacity_witness : capInv exC7r.estados :=
  C7_capacity.2.1 ("sjf") 2 exC1w [] exC7t exC7r (by decide)
    (by unfold capInv; decide) (by decide)

/-- With unique pending ids, every task carrying the response id in the
updated pending list is not running. -/
theorem updateTask_running_false (rid : Nat) (rrem : ℚ) (l : List Tarefa)
    (hnd : (l.map Tarefa.id).Nodup) :
    ∀ p ∈ updateTask rid rrem l, p.id = rid → p.running = false := by
  induction l with
  | nil =>
    intro p hp
    simp [updateTask] at hp
  | cons q qs ih =>
    simp only [List.map_cons, List.nodup_cons] at hnd
    by_cases hq : q.id = rid
    · simp only [updateTask, if_pos hq]
      intro p hp hpid
      rcases List.mem_cons.mp hp with rfl | hp
      · rfl
      · exfalso
        apply hnd.1
        rw [hq, ← hpid]
        exact List.mem_map_of_mem _ hp
    · simp only [updateTask, if_neg hq]
      intro p hp hpid
      rcases List.mem_cons.mp hp with rfl | hp
      · exact absurd hpid hq
      · exact ih hnd.2 p hp hpid

/-- The per-task protocol invariant: the outstanding dispatch count is 1 when
the task is running and 0 otherwise, at every reachable ghost state. -/
theorem runTrace_inv (evs : List TEvent) :
    ∀ g0 g, g0.outstanding = (if g0.running then 1 else 0) →
      runTrace g0 evs = some g →
      g.outstanding = (if g.running then 1 else 0) := by
  induction evs with
  | nil =>
    intro g0 g h0 h
    simp only [runTrace, Option.some.injEq] at h
    rw [← h]
    exact h0
  | cons e es ih =>
    intro g0 g h0 h
    simp only [runTrace] at h
    cases e with
    | dispatch sid =>
      simp only [stepGhost] at h
      by_cases hr : g0.running
      · rw [if_pos hr] at h
        exact absurd h (by simp)
      · rw [if_neg hr] at h
        have h0z : g0.outstanding = 0 := by rw [h0, if_neg hr]
        refine ih { running := true, outstanding := g0.outstanding + 1 } g
          ?_ h
        simp [h0z]
    | response sid =>
      simp only [stepGhost] at h
      by_cases hz : g0.outstanding = 0
      · rw [if_pos hz] at h
        exact absurd h (by simp)
      · rw [if_neg hz] at h
        have h1 : g0.outstanding = 1 := by
          by_cases hr : g0.running
          · rw [h0, if_pos hr]
          · rw [h0, if_neg hr] at hz
            exact absurd rfl hz
        refine ih { running := false, outstanding := g0.outstanding - 1 } g
          ?_ h
        simp [h1]

/-- C8: only non-running tasks are eligible for dispatch, a dispatch marks
the task running, a drained response marks the matched task not running, and
along any per-task history of dispatches and matched responses the number of
outstanding dispatches is 1 while running and 0 otherwise, hence never
exceeds 1: no task is ever dispatched to two servers concurrently. -/
theorem C8_single_dispatch :
    (∀ pending, ∀ t ∈ elegiveisOf pending, t.running = false) ∧
    (∀ policy quantum estados completed t r,
      assignOne policy quantum estados completed t = some r →
      r.t2.running = true) ∧
    (∀ st resp now2 st1 ev, (st.pending.map Tarefa.id).Nodup →
      drainOne st resp now2 = .ok (st1, ev) →
      ∀ p ∈ st1.pending, p.id = resp.id → p.running = false) ∧
    (∀ evs g, runTrace { running := false, outstanding := 0 } evs = some g →
      g.outstanding = (if g.running then 1 else 0) ∧ g.outstanding ≤ 1) := by
  refine ⟨?_, ?_, ?_, ?_⟩
  · intro pending t ht
    exact (of_decide_eq_true (List.mem_filter.mp ht).2).1
  · intro policy quantum estados completed t r h
    obtain ⟨sid, -, rfl⟩ := assignOne_spec h
    rfl
  · intro st resp now2 st1 ev hnd h p hp hpid
    obtain ⟨-, -, hbr⟩ := drainOne_ok_spec h
    rcases hbr with ⟨-, -, hpend, -, -⟩ | ⟨-, hpend, -, -⟩
    · rw [hpend] at hp
      exact absurd hpid (of_decide_eq_true (List.mem_filter.mp hp).2)
    · rw [hpend] at hp
      exact updateTask_running_false _ _ _ hnd p hp hpid
  · intro evs g h
    have hinv := runTrace_inv evs { running := false, outstanding := 0 } g
      (by simp) h
    refine ⟨hinv, ?_⟩
    rw [hinv]
    by_cases hr : g.running
    · rw [if_pos hr]
    · rw [if_neg hr]
      exact Nat.zero_le 1

/-- Witness for C8: after the history dispatch, matched response, dispatch,
the ghost state is running with exactly one outstanding dispatch. -/
theorem C8_single_dispatch_witness :
    (({ running := true, outstanding := 1 } : TaskGhost).outstanding
      = if ({ running := true, outstanding := 1 } : TaskGhost).running
          then 1 else 0) ∧
    ({ running := true, outstanding := 1 } : TaskGhost).outstanding ≤ 1 :=
  C8_single_dispatch.2.2.2 [TEvent.dispatch 1, TEvent.response 1,
    TEvent.dispatch 2] { running := true, outstanding := 1 } (by decide)

/-- C9: contrary to the claim, the drain step does not raise on a response
whose task id matches no pending task when its remaining time is positive: it
returns normally, emits a preemption event for the unknown id and leaves the
pending list unchanged. -/
theorem C9_unknown_id_not_fatal :
    (∀ p ∈ exC9st.pending, p.id ≠ exC9resp.id) ∧ exC9resp.remaining ≠ 0 ∧
    drainOne exC9st exC9resp 5 =
      .ok ({ pending := exC9st.pending, estados := [(2, ⟨1, 0, 1⟩)],
             completed := exC9st.completed },
           .preemption 99 2 2) := by
  refine ⟨by decide, by decide, ?_⟩
  simp [drainOne, exC9st, exC9resp, lookupAssoc, updAssoc, updateTask]

/-- C10: a configuration with an empty request list makes the loop exit on
its first cycle with no completion records, and the metrics computation then
divides by the zero count of completed tasks and raises instead of returning
a result. -/
theorem C10_empty_config_division_error (policy : String) (quantum : ℚ)
    (servidores : List Servidor) (fuel : Nat) (start total : ℚ) :
    executar_politica policy quantum [] servidores (fun _ => [])
      (fuel + 1) start total = .error ("ZeroDivisionError") := by
  simp [executar_politica, runLoop, assignPhase, elegiveisOf, reorder,
    initPending, drainAll, exitCond, metricas, assignPhaseAux]

end BSBCompute
